import Mathlib

/-!
Verification of the APR/profitability computation engine of the
layer-profitability-checker repository.

The Python sources `src/apr.py` and `src/scenarios.py` are shallowly embedded
below.  Python floats are modelled by the rationals `ℚ` (all the claims under
consideration are about the exact arithmetic the formulas denote); Python's
`/`, which raises `ZeroDivisionError` on a zero divisor, is modelled by
`pyDiv` returning `Except`, and a total variant `aprByStake` (Lean's `x / 0 = 0`
convention) is used where the calling context guarantees nonzero divisors.
-/

set_option maxRecDepth 16000

/-- Error kinds raised by the embedded Python operations:
`ZeroDivisionError` from `/`, `ValueError` from `int()` on a string without
an integer reading. -/
inductive PyError where
  | zeroDivisionError
  | valueError
deriving DecidableEq

/-- Python division: raises `ZeroDivisionError` when the divisor is zero
(both for ints and floats), otherwise exact division. -/
def pyDiv (a b : ℚ) : Except PyError ℚ :=
  if b = 0 then .error .zeroDivisionError else .ok (a / b)

/-- Embedding of `calculate_apr_by_stake` (src/apr.py lines 7-20).
Each Python `/` is modelled by `pyDiv`, in source order:
`proportion_stake`, `avg_fee / 2`, `blocks_per_year`, and the final
`annual_profit / stake_amount`. -/
def calculate_apr_by_stake
    (stake_amount total_tokens_active avg_mint_amount avg_fee avg_block_time : ℚ) :
    Except PyError ℚ := do
  let proportion_stake ← pyDiv stake_amount total_tokens_active
  let half_fee ← pyDiv avg_fee 2
  let profit_per_block := proportion_stake * avg_mint_amount - half_fee
  let blocks_per_year ← pyDiv (365 * 24 * 3600) avg_block_time
  let annual_profit := profit_per_block * blocks_per_year
  let apr ← pyDiv annual_profit stake_amount
  return apr * 100

/-- Total-function version of `calculate_apr_by_stake`, used by the callers in
the source that guarantee nonzero divisors (`calculate_reporter_aprs`, the
numerical break-even search in `print_apr_table`). -/
def aprByStake (stake_amount total_tokens_active avg_mint_amount avg_fee avg_block_time : ℚ) : ℚ :=
  ((stake_amount / total_tokens_active) * avg_mint_amount - avg_fee / 2)
    * ((365 * 24 * 3600) / avg_block_time) / stake_amount * 100

/-- On nonzero divisors the checked embedding succeeds with the total one. -/
theorem calculate_apr_by_stake_eq_ok
    (stake total mint fee bt : ℚ) (hs : stake ≠ 0) (ht : total ≠ 0) (hb : bt ≠ 0) :
    calculate_apr_by_stake stake total mint fee bt =
      .ok (aprByStake stake total mint fee bt) := by
  simp only [calculate_apr_by_stake, aprByStake, pyDiv, if_neg hs, if_neg ht, if_neg hb,
    if_neg (by norm_num : (2 : ℚ) ≠ 0)]
  rfl

/-- Embedding of `calculate_break_even_stake` (src/apr.py lines 23-33).
`avg_block_time` is accepted and unused, exactly as in the source. -/
def calculate_break_even_stake
    (total_tokens_active avg_mint_amount avg_fee avg_block_time median_stake : ℚ) :
    Option ℚ × Option ℚ :=
  if 0 < avg_mint_amount then
    let break_even_stake := ((avg_fee / 2) * total_tokens_active) / avg_mint_amount
    let break_even_mult := if 0 < median_stake then break_even_stake / median_stake else 0
    (some break_even_stake, some break_even_mult)
  else
    (none, none)

/-- C1: for positive `stake`, `total_active_stake` and `avg_block_time`,
`calculate_apr_by_stake` returns exactly
`((stake/total)*mint - fee/2) * ((365*24*3600)/block_time) / stake * 100`
as a successful value; a negative value of this expression is returned as a
valid `.ok` result, not an error. -/
theorem apr_by_stake_formula_ok
    (stake total mint fee bt : ℚ) (hs : 0 < stake) (ht : 0 < total) (hb : 0 < bt) :
    calculate_apr_by_stake stake total mint fee bt =
      .ok (((stake / total) * mint - fee / 2) * ((365 * 24 * 3600) / bt) / stake * 100) :=
  calculate_apr_by_stake_eq_ok stake total mint fee bt hs.ne' ht.ne' hb.ne'

/-- Witness for C1 at concrete inputs; the chosen inputs make the APR
negative (`-100`), and it is still returned as a valid `.ok` value. -/
theorem apr_by_stake_formula_ok_witness :
    calculate_apr_by_stake 1 10 0 2 31536000 = .ok (-100) := by
  rw [apr_by_stake_formula_ok 1 10 0 2 31536000 (by norm_num) (by norm_num) (by norm_num)]
  norm_num

/-- C6: with a positive total stake and block time, calling
`calculate_apr_by_stake` with `stake = 0` fails with the division-by-zero
error kind: it raises rather than silently returning `0` or a default. -/
theorem apr_by_stake_zero_stake_raises
    (total mint fee bt : ℚ) (ht : 0 < total) (hb : 0 < bt) :
    calculate_apr_by_stake 0 total mint fee bt = .error .zeroDivisionError := by
  simp only [calculate_apr_by_stake, pyDiv, if_neg ht.ne', if_neg hb.ne',
    if_neg (by norm_num : (2 : ℚ) ≠ 0), if_pos rfl]
  rfl

/-- Witness for C6 at concrete inputs. -/
theorem apr_by_stake_zero_stake_raises_witness :
    calculate_apr_by_stake 0 10000 1 5 2 = .error .zeroDivisionError :=
  apr_by_stake_zero_stake_raises 10000 1 5 2 (by norm_num) (by norm_num)

/-- C3 counterexample: with a negative (hence nonzero) reference stake the
code returns multiplier `0`, while the claim as stated predicts
`break_even_stake / reference_stake = 10 / (-1) ≠ 0`.  Concrete input:
`total = 10`, `mint = 1`, `fee = 2`, `block_time = 6`, `median_stake = -1`. -/
theorem break_even_mult_negative_reference :
    calculate_break_even_stake 10 1 2 6 (-1) = (some 10, some 0) ∧
      (10 : ℚ) / (-1) ≠ 0 := by
  constructor
  · norm_num [calculate_break_even_stake]
  · norm_num

/-- C3 (amended: the multiplier is `break_even_stake / reference_stake` only
when the reference stake is positive, not merely nonzero; for a non-positive
reference the multiplier is `0`): with `avg_mint_per_block > 0` the function
returns the closed-form pair, and with `avg_mint_per_block <= 0` it returns
the explicit no-result `(none, none)`. -/
theorem break_even_stake_spec
    (total mint fee bt median : ℚ) :
    (0 < mint →
      (calculate_break_even_stake total mint fee bt median).1 =
          some (((fee / 2) * total) / mint)
        ∧ (0 < median →
            (calculate_break_even_stake total mint fee bt median).2 =
              some ((((fee / 2) * total) / mint) / median))
        ∧ (median ≤ 0 →
            (calculate_break_even_stake total mint fee bt median).2 = some 0))
    ∧ (mint ≤ 0 → calculate_break_even_stake total mint fee bt median = (none, none)) := by
  refine ⟨fun hm => ⟨?_, fun hmed => ?_, fun hmed => ?_⟩, fun hm => ?_⟩
  · simp [calculate_break_even_stake, hm]
  · simp [calculate_break_even_stake, hm, hmed]
  · simp [calculate_break_even_stake, hm, not_lt.mpr hmed]
  · simp [calculate_break_even_stake, not_lt.mpr hm]

/-- Witness for C3 at concrete inputs: positive mint and positive reference
stake (`total = 10`, `mint = 1`, `fee = 2`, `median = 5`). -/
theorem break_even_stake_spec_witness :
    (calculate_break_even_stake 10 1 2 6 5).1 = some 10 ∧
      (calculate_break_even_stake 10 1 2 6 5).2 = some 2 := by
  have h := break_even_stake_spec 10 1 2 6 5
  have h1 := (h.1 (by norm_num)).1
  have h2 := (h.1 (by norm_num)).2.1 (by norm_num)
  refine ⟨?_, ?_⟩
  · rw [h1]; norm_num
  · rw [h2]; norm_num

/-- Embedding of `np.linspace(start, stop, num)` with endpoint=True:
`num` evenly spaced samples, point `i` being `start + i * (stop-start)/(num-1)`. -/
def linspace (start stop : ℚ) (num : ℕ) : List ℚ :=
  (List.range num).map (fun i : ℕ => start + (i : ℚ) * ((stop - start) / ((num : ℚ) - 1)))

/-- Result record of `generate_stake_amount_scenarios`: the three parallel
arrays of the returned dict. -/
structure ScenarioResults where
  stake_amounts : List ℚ
  stake_amounts_trb : List ℚ
  weighted_avg_aprs : List ℚ

/-- Embedding of `generate_stake_amount_scenarios` (src/scenarios.py
lines 58-102).  `base_total_stake` is accepted and unused, as in the source;
TRB quantities are converted to loya by the factor `1e6 = 1000000`. -/
def generate_stake_amount_scenarios
    (base_total_stake avg_mint_amount avg_fee avg_block_time : ℚ) : ScenarioResults :=
  let stake_amounts_trb := linspace 100 2000000 1000
  let stake_amounts := stake_amounts_trb.map (· * 1000000)
  let blocks_per_year := (365 * 24 * 3600) / avg_block_time
  let reports_per_block : ℚ := 1 / 2
  let reports_per_year := blocks_per_year * reports_per_block
  let avg_mint_amount_loya := avg_mint_amount * 1000000
  let avg_fee_loya := avg_fee * 1000000
  let total_mint_per_year := avg_mint_amount_loya * blocks_per_year
  let total_fees_per_year := avg_fee_loya * reports_per_year
  let weighted_avg_aprs :=
    stake_amounts.map (fun total_stake =>
      (total_mint_per_year - total_fees_per_year) / total_stake * 100)
  { stake_amounts := stake_amounts
    stake_amounts_trb := stake_amounts_trb
    weighted_avg_aprs := weighted_avg_aprs }

/-- Reading a mapped range at an in-bounds index. -/
theorem getD_map_range (f : ℕ → ℚ) (n i : ℕ) (h : i < n) :
    ((List.range n).map f).getD i 0 = f i := by
  simp [List.getD_eq_getElem?_getD, List.getElem?_map, List.getElem?_range h]

/-- The `i`-th TRB sample of the scenario curve. -/
theorem stake_amounts_trb_getD
    (base mint fee bt : ℚ) (i : ℕ) (h : i < 1000) :
    (generate_stake_amount_scenarios base mint fee bt).stake_amounts_trb.getD i 0 =
      100 + (i : ℚ) * ((2000000 - 100) / 999) := by
  have e : (generate_stake_amount_scenarios base mint fee bt).stake_amounts_trb =
      linspace 100 2000000 1000 := rfl
  rw [e, linspace, getD_map_range _ 1000 i h]
  norm_num

/-- The `i`-th stored APR of the scenario curve, in raw (loya-based) form. -/
theorem weighted_avg_aprs_getD
    (base mint fee bt : ℚ) (i : ℕ) (h : i < 1000) :
    (generate_stake_amount_scenarios base mint fee bt).weighted_avg_aprs.getD i 0 =
      (mint * 1000000 * ((365 * 24 * 3600) / bt) -
          fee * 1000000 * (((365 * 24 * 3600) / bt) * (1 / 2))) /
        ((100 + (i : ℚ) * ((2000000 - 100) / 999)) * 1000000) * 100 := by
  have e : (generate_stake_amount_scenarios base mint fee bt).weighted_avg_aprs =
      ((linspace 100 2000000 1000).map (· * 1000000)).map (fun total_stake =>
        (mint * 1000000 * ((365 * 24 * 3600) / bt) -
            fee * 1000000 * (((365 * 24 * 3600) / bt) * (1 / 2))) / total_stake * 100) := rfl
  rw [e, linspace, List.map_map, List.map_map, getD_map_range _ 1000 i h]
  simp only [Function.comp]
  norm_num

/-- C2: for every positive block time, the stake-scenario projector samples
1000 evenly spaced TRB stakes from 100 to 2,000,000, and the stored APR at
each sample `X` equals
`(mint * blocks_per_year - fee * (1/2) * blocks_per_year) / X * 100`
with `blocks_per_year = (365*24*3600)/block_time`: the loya conversion of
numerator and denominator by the common factor `1e6` cancels exactly. -/
theorem stake_scenarios_curve_spec (base mint fee bt : ℚ) (hbt : 0 < bt) :
    (generate_stake_amount_scenarios base mint fee bt).stake_amounts_trb.length = 1000
  ∧ (generate_stake_amount_scenarios base mint fee bt).weighted_avg_aprs.length = 1000
  ∧ (generate_stake_amount_scenarios base mint fee bt).stake_amounts_trb.getD 0 0 = 100
  ∧ (generate_stake_amount_scenarios base mint fee bt).stake_amounts_trb.getD 999 0 = 2000000
  ∧ (∀ i : ℕ, i + 1 < 1000 →
      (generate_stake_amount_scenarios base mint fee bt).stake_amounts_trb.getD (i + 1) 0 -
          (generate_stake_amount_scenarios base mint fee bt).stake_amounts_trb.getD i 0 =
        (2000000 - 100) / 999)
  ∧ (∀ i : ℕ, i < 1000 →
      (generate_stake_amount_scenarios base mint fee bt).weighted_avg_aprs.getD i 0 =
        (mint * ((365 * 24 * 3600) / bt) - fee * (1 / 2) * ((365 * 24 * 3600) / bt)) /
          ((generate_stake_amount_scenarios base mint fee bt).stake_amounts_trb.getD i 0) * 100) := by
  refine ⟨?_, ?_, ?_, ?_, fun i hi => ?_, fun i hi => ?_⟩
  · simp [generate_stake_amount_scenarios, linspace]
  · simp [generate_stake_amount_scenarios, linspace]
  · rw [stake_amounts_trb_getD base mint fee bt 0 (by norm_num)]; norm_num
  · rw [stake_amounts_trb_getD base mint fee bt 999 (by norm_num)]; norm_num
  · rw [stake_amounts_trb_getD base mint fee bt (i + 1) hi,
      stake_amounts_trb_getD base mint fee bt i (by omega)]
    push_cast
    ring
  · rw [weighted_avg_aprs_getD base mint fee bt i hi,
      stake_amounts_trb_getD base mint fee bt i hi]
    have hX : (0 : ℚ) < 100 + (i : ℚ) * ((2000000 - 100) / 999) := by positivity
    field_simp
    ring

/-- Witness for C2 at concrete inputs (`block_time = 6`, so
`blocks_per_year = 5256000`; `mint = 3`, `fee = 4` give net rewards
`3B - 2B = B` per year, hence APR `B / 100 * 100 = 5256000` at the first
sample `X = 100`). -/
theorem stake_scenarios_curve_spec_witness :
    (generate_stake_amount_scenarios 500000 3 4 6).stake_amounts_trb.getD 0 0 = 100 ∧
      (generate_stake_amount_scenarios 500000 3 4 6).weighted_avg_aprs.getD 0 0 = 5256000 := by
  have h := stake_scenarios_curve_spec 500000 3 4 6 (by norm_num)
  refine ⟨h.2.2.1, ?_⟩
  rw [h.2.2.2.2.2 0 (by norm_num), h.2.2.1]
  norm_num

/-- C7 counterexample: with `mint = 0`, `fee = 2`, `block_time = 31536000`
(so one block per year) the net reward is negative and the produced curve is
strictly increasing at its first two samples: the stake grows but the APR
grows too (`-1 < -99900/2099800`), refuting monotone decrease for arbitrary
nonnegative fee. -/
theorem scenario_curve_increasing_example :
    (generate_stake_amount_scenarios 1 0 2 31536000).stake_amounts_trb.getD 0 0 <
        (generate_stake_amount_scenarios 1 0 2 31536000).stake_amounts_trb.getD 1 0
      ∧ (generate_stake_amount_scenarios 1 0 2 31536000).weighted_avg_aprs.getD 0 0 <
        (generate_stake_amount_scenarios 1 0 2 31536000).weighted_avg_aprs.getD 1 0 := by
  rw [stake_amounts_trb_getD 1 0 2 31536000 0 (by norm_num),
    stake_amounts_trb_getD 1 0 2 31536000 1 (by norm_num),
    weighted_avg_aprs_getD 1 0 2 31536000 0 (by norm_num),
    weighted_avg_aprs_getD 1 0 2 31536000 1 (by norm_num)]
  norm_num

/-- C7 (amended: the curve is monotonically decreasing provided the net
reward per block is nonnegative, i.e. `avg_mint_per_block >= avg_fee_per_block/2`;
with a negative net reward the curve is increasing, see the counterexample):
consecutive samples have strictly increasing stake and non-increasing APR. -/
theorem scenario_curve_antitone
    (base mint fee bt : ℚ) (hfee : 0 ≤ fee) (hbt : 0 < bt) (hnet : fee / 2 ≤ mint)
    (i : ℕ) (hi : i + 1 < 1000) :
    (generate_stake_amount_scenarios base mint fee bt).stake_amounts_trb.getD i 0 <
        (generate_stake_amount_scenarios base mint fee bt).stake_amounts_trb.getD (i + 1) 0
      ∧ (generate_stake_amount_scenarios base mint fee bt).weighted_avg_aprs.getD (i + 1) 0 ≤
        (generate_stake_amount_scenarios base mint fee bt).weighted_avg_aprs.getD i 0 := by
  have hi0 : i < 1000 := by omega
  rw [stake_amounts_trb_getD base mint fee bt i hi0,
    stake_amounts_trb_getD base mint fee bt (i + 1) hi,
    weighted_avg_aprs_getD base mint fee bt i hi0,
    weighted_avg_aprs_getD base mint fee bt (i + 1) hi]
  have hB : (0 : ℚ) < (365 * 24 * 3600) / bt := by positivity
  have hN : 0 ≤ mint * 1000000 * ((365 * 24 * 3600) / bt) -
      fee * 1000000 * (((365 * 24 * 3600) / bt) * (1 / 2)) := by nlinarith
  have hX1 : (0 : ℚ) < (100 + (i : ℚ) * ((2000000 - 100) / 999)) * 1000000 := by positivity
  have hX2 : (0 : ℚ) < (100 + ((i : ℚ) + 1) * ((2000000 - 100) / 999)) * 1000000 := by positivity
  have hle : (100 + (i : ℚ) * ((2000000 - 100) / 999)) * 1000000 ≤
      (100 + ((i : ℚ) + 1) * ((2000000 - 100) / 999)) * 1000000 := by nlinarith
  constructor
  · push_cast
    nlinarith
  · push_cast
    refine mul_le_mul_of_nonneg_right ?_ (by norm_num)
    rw [div_le_div_iff hX2 hX1]
    exact mul_le_mul_of_nonneg_left hle hN

/-- Witness for C7 (amended) at concrete inputs with nonnegative net reward. -/
theorem scenario_curve_antitone_witness :
    (generate_stake_amount_scenarios 1 1 1 6).stake_amounts_trb.getD 0 0 <
        (generate_stake_amount_scenarios 1 1 1 6).stake_amounts_trb.getD 1 0
      ∧ (generate_stake_amount_scenarios 1 1 1 6).weighted_avg_aprs.getD 1 0 ≤
        (generate_stake_amount_scenarios 1 1 1 6).weighted_avg_aprs.getD 0 0 :=
  scenario_curve_antitone 1 1 1 6 (by norm_num) (by norm_num) (by norm_num) 0 (by norm_num)

/-- The multiplier grid of the numerical break-even search in
`print_apr_table` (src/apr.py line 133): `np.linspace(0.05, 0.25, 2000)`. -/
def gridMultipliers : List ℚ :=
  linspace (1 / 20) (1 / 4) 2000

/-- Embedding of the numerical break-even search of `print_apr_table`
(src/apr.py lines 128-141): scan the multiplier grid in order, test
`test_stake = median_stake * test_mult`, and accept the first multiplier
whose APR lies within 1 percentage point of zero; `none` models the Python
loop finishing with `break_even_stake = break_even_mult = None`. -/
def numericalBreakEven (total mint fee bt median : ℚ) : Option (ℚ × ℚ) :=
  (gridMultipliers.find? (fun m => decide (|aprByStake (median * m) total mint fee bt| < 1))).map
    (fun m => (median * m, m))

/-- With the whole network as one unit of stake, unit mint, no fee and one
block per year, the APR is the constant `100` at every nonzero stake. -/
theorem aprByStake_const_hundred (m : ℚ) (hm : m ≠ 0) :
    aprByStake m 1 1 0 31536000 = 100 := by
  unfold aprByStake
  rw [div_one]
  norm_num
  exact div_self hm

/-- C4 counterexample: for the `NetworkState` `total = 1`, `mint = 1`,
`fee = 0`, `block_time = 31536000` with reference stake `1` (all constraints
of the claim satisfied), the APR is `100` at every grid point, so the
numerical search returns `none` while the closed form returns a result: the
two do not agree as the claim states. -/
theorem numerical_break_even_none_example :
    numericalBreakEven 1 1 0 31536000 1 = none ∧
      calculate_break_even_stake 1 1 0 31536000 1 = (some 0, some 0) := by
  constructor
  · have hnone : gridMultipliers.find?
        (fun m => decide (|aprByStake (1 * m) 1 1 0 31536000| < 1)) = none := by
      rw [List.find?_eq_none]
      intro m hm
      rw [gridMultipliers, linspace] at hm
      obtain ⟨i, hi, rfl⟩ := List.mem_map.mp hm
      simp only [decide_eq_true_eq, not_lt]
      push_cast
      have hm0 : (0 : ℚ) < 1 / 20 + (i : ℚ) * ((1 / 4 - 1 / 20) / (2000 - 1)) := by
        positivity
      rw [one_mul, aprByStake_const_hundred _ hm0.ne']
      norm_num
    rw [numericalBreakEven, hnone]
    rfl
  · norm_num [calculate_break_even_stake]

/-- C4 (amended: the numerical search may return `none` even on a valid
`NetworkState` — see the counterexample — but whenever it does return a
stake, and the closed form yields a positive break-even stake, the APRs at
the two stakes agree within the search tolerance of 1 percentage point,
because the APR at the closed-form stake is exactly 0). -/
theorem break_even_refinement
    (total mint fee bt median s m be : ℚ)
    (htot : 0 < total) (hmint : 0 < mint) (hfee : 0 ≤ fee) (hbt : 0 < bt) (hmed : 0 < median)
    (hnum : numericalBreakEven total mint fee bt median = some (s, m))
    (hcf : (calculate_break_even_stake total mint fee bt median).1 = some be)
    (hbe : 0 < be) :
    |aprByStake s total mint fee bt - aprByStake be total mint fee bt| < 1 := by
  have hbe_eq : be = ((fee / 2) * total) / mint := by
    have h1 : (calculate_break_even_stake total mint fee bt median).1 =
        some (((fee / 2) * total) / mint) := by
      simp [calculate_break_even_stake, hmint]
    rw [h1] at hcf
    exact (Option.some.inj hcf).symm
  have hz : ((((fee / 2) * total) / mint) / total) * mint - fee / 2 = 0 := by
    field_simp
    ring
  have hapr_be : aprByStake be total mint fee bt = 0 := by
    rw [hbe_eq]
    unfold aprByStake
    rw [hz, zero_mul, zero_div, zero_mul]
  obtain ⟨m', hfind, heq⟩ := Option.map_eq_some'.mp hnum
  have hs : s = median * m' := by
    have := (Prod.mk.injEq _ _ _ _).mp heq
    exact this.1.symm
  have hpred := List.find?_some hfind
  simp only [decide_eq_true_eq] at hpred
  rw [hapr_be, sub_zero, hs]
  exact hpred

/-- Witness for C4 (amended) at concrete inputs: `total = 1000`, `mint = 1`,
`fee = 1/500`, `block_time = 31536000`, reference stake `20`.  The very
first grid multiplier `0.05` gives `test_stake = 1` with APR exactly 0, so
the search succeeds, and the closed-form break-even stake is also `1`. -/
theorem break_even_refinement_witness :
    |aprByStake 1 1000 1 (1 / 500) 31536000 - aprByStake 1 1000 1 (1 / 500) 31536000| < 1 := by
  have hnum : numericalBreakEven 1000 1 (1 / 500) 31536000 20 = some (1, 1 / 20) := by
    rw [numericalBreakEven, gridMultipliers, linspace]
    rw [show (2000 : ℕ) = 1999 + 1 from rfl, List.range_succ_eq_map, List.map_cons]
    rw [List.find?_cons_of_pos]
    · norm_num
    · simp only [decide_eq_true_eq]
      norm_num [aprByStake]
  have hcf : (calculate_break_even_stake 1000 1 (1 / 500) 31536000 20).1 = some 1 := by
    norm_num [calculate_break_even_stake]
  exact break_even_refinement 1000 1 (1 / 500) 31536000 20 1 (1 / 20) 1
    (by norm_num) (by norm_num) (by norm_num) (by norm_num) (by norm_num) hnum hcf (by norm_num)

/-- Input reporter record, the dict shape consumed by
`calculate_reporter_aprs` (`reporters_data["active"]` entries): `power` is a
decimal string, `commission_rate` is modelled by its parsed value with
`none` standing for the empty (falsy) string. -/
structure ReporterInput where
  address : String
  moniker : String
  power : String
  commission_rate : Option ℚ
deriving DecidableEq

/-- Output record appended by `calculate_reporter_aprs` and consumed by
`calculate_apr_avgs`. -/
structure ReporterAPR where
  address : String
  moniker : String
  power_trb : ℚ
  apr : ℚ
  commission_rate : ℚ
deriving DecidableEq

/-- Python `str.isdigit` restricted to ASCII content: nonempty and all
characters decimal digits (so `""`, `"-5"`, `"1.5"` are all false). -/
def pyIsDigit (s : String) : Bool :=
  !s.data.isEmpty && s.data.all Char.isDigit

/-- Value of Python `int(s)` on a digit string. -/
def parseDigits (cs : List Char) : ℕ :=
  cs.foldl (fun n c => n * 10 + (c.toNat - 48)) 0

/-- Embedding of `int(reporter["power"]) if reporter["power"].isdigit() else 0`
(src/apr.py line 359). -/
def parsePower (s : String) : ℚ :=
  if pyIsDigit s then (parseDigits s.data : ℚ) else 0

/-- The record built for one kept reporter (src/apr.py lines 365-375):
moniker falls back to the first 12 characters of the address plus `"..."`
when the moniker string is empty (falsy), and the commission percentage is
`0` for an empty commission string. -/
def mkReporterEntry (total mint fee bt : ℚ) (r : ReporterInput) : ReporterAPR :=
  { address := r.address
    moniker := if r.moniker = "" then r.address.take 12 ++ "..." else r.moniker
    power_trb := parsePower r.power
    apr := aprByStake (parsePower r.power) total mint fee bt
    commission_rate :=
      match r.commission_rate with
      | some c => c * 100
      | none => 0 }

/-- The accumulation loop of `calculate_reporter_aprs` (src/apr.py lines
357-375): keep input order, skipping reporters whose parsed power is not
positive. -/
def collectEntries (total mint fee bt : ℚ) : List ReporterInput → List ReporterAPR
  | [] => []
  | r :: rest =>
    if 0 < parsePower r.power then
      mkReporterEntry total mint fee bt r :: collectEntries total mint fee bt rest
    else
      collectEntries total mint fee bt rest

/-- Comparison used for the final sort: `a` may precede `b` iff
`b.power_trb <= a.power_trb` (descending by power).  A stable sort under
this relation is exactly Python's stable `sort(key=power, reverse=True)`. -/
def powerDescLe (a b : ReporterAPR) : Bool :=
  decide (b.power_trb ≤ a.power_trb)

/-- Embedding of `calculate_reporter_aprs` (src/apr.py lines 351-379):
collect the kept reporters in input order, then sort stably by descending
power. -/
def calculate_reporter_aprs
    (reporters : List ReporterInput) (total mint fee bt : ℚ) : List ReporterAPR :=
  (collectEntries total mint fee bt reporters).mergeSort powerDescLe

theorem powerDescLe_trans (a b c : ReporterAPR) :
    powerDescLe a b → powerDescLe b c → powerDescLe a c := by
  simp only [powerDescLe, decide_eq_true_eq]
  exact fun h1 h2 => le_trans h2 h1

theorem powerDescLe_total (a b : ReporterAPR) :
    powerDescLe a b || powerDescLe b a := by
  simp only [powerDescLe, Bool.or_eq_true, decide_eq_true_eq]
  exact le_total b.power_trb a.power_trb

/-- The loop is the filter-then-map of the kept reporters. -/
theorem collectEntries_eq (total mint fee bt : ℚ) (rs : List ReporterInput) :
    collectEntries total mint fee bt rs =
      (rs.filter (fun r => decide (0 < parsePower r.power))).map
        (mkReporterEntry total mint fee bt) := by
  induction rs with
  | nil => rfl
  | cons r rest ih =>
    by_cases h : 0 < parsePower r.power
    · simp [collectEntries, List.filter_cons, h, ih]
    · simp [collectEntries, List.filter_cons, h, ih]

/-- Membership in the collected list. -/
theorem mem_collectEntries (total mint fee bt : ℚ) (rs : List ReporterInput) (e : ReporterAPR) :
    e ∈ collectEntries total mint fee bt rs ↔
      ∃ r ∈ rs, 0 < parsePower r.power ∧ e = mkReporterEntry total mint fee bt r := by
  rw [collectEntries_eq]
  simp only [List.mem_map, List.mem_filter, decide_eq_true_eq]
  constructor
  · rintro ⟨r, ⟨hr, hp⟩, rfl⟩
    exact ⟨r, hr, hp, rfl⟩
  · rintro ⟨r, hr, hp, rfl⟩
    exact ⟨r, ⟨hr, hp⟩, rfl⟩

/-- C8: the reporter pipeline (1) keeps only reporters with positive parsed
power, (2) computes each kept reporter's APR by the 4.1 formula at
`stake = power`, (3) sorts descending by power with ties keeping input
order (stability stated as: restricting the output to any fixed power value
gives exactly the corresponding restriction of the unsorted
filter-and-map), and (4) falls back to the first 12 address characters
plus `"..."` for an empty moniker. -/
theorem reporter_aprs_spec
    (reporters : List ReporterInput) (total mint fee bt : ℚ) :
    (∀ e ∈ calculate_reporter_aprs reporters total mint fee bt, 0 < e.power_trb)
  ∧ (calculate_reporter_aprs reporters total mint fee bt).Perm
      ((reporters.filter (fun r => decide (0 < parsePower r.power))).map
        (mkReporterEntry total mint fee bt))
  ∧ (∀ e ∈ calculate_reporter_aprs reporters total mint fee bt,
      e.apr = aprByStake e.power_trb total mint fee bt)
  ∧ (calculate_reporter_aprs reporters total mint fee bt).Pairwise
      (fun a b => b.power_trb ≤ a.power_trb)
  ∧ (∀ p : ℚ,
      (calculate_reporter_aprs reporters total mint fee bt).filter
          (fun e => decide (e.power_trb = p)) =
        ((reporters.filter (fun r => decide (0 < parsePower r.power))).map
          (mkReporterEntry total mint fee bt)).filter (fun e => decide (e.power_trb = p)))
  ∧ (∀ r ∈ reporters, 0 < parsePower r.power → r.moniker = "" →
      (mkReporterEntry total mint fee bt r).moniker = r.address.take 12 ++ "...") := by
  have hperm : (calculate_reporter_aprs reporters total mint fee bt).Perm
      (collectEntries total mint fee bt reporters) :=
    List.mergeSort_perm _ powerDescLe
  have hmem : ∀ e ∈ calculate_reporter_aprs reporters total mint fee bt,
      ∃ r ∈ reporters, 0 < parsePower r.power ∧ e = mkReporterEntry total mint fee bt r := by
    intro e he
    exact (mem_collectEntries total mint fee bt reporters e).mp (hperm.mem_iff.mp he)
  refine ⟨?_, ?_, ?_, ?_, ?_, ?_⟩
  · intro e he
    obtain ⟨r, _, hp, rfl⟩ := hmem e he
    exact hp
  · exact (collectEntries_eq total mint fee bt reporters) ▸ hperm
  · intro e he
    obtain ⟨r, _, hp, rfl⟩ := hmem e he
    rfl
  · have h := @List.sorted_mergeSort ReporterAPR powerDescLe
      powerDescLe_trans
      (fun a b => powerDescLe_total a b)
      (collectEntries total mint fee bt reporters)
    exact h.imp (fun {a b} hab => by
      have := of_decide_eq_true hab
      exact this)
  · intro p
    set q : ReporterAPR → Bool := fun e => decide (e.power_trb = p) with hq
    set c := (collectEntries total mint fee bt reporters).filter q with hc
    have hcq : ∀ e ∈ c, q e = true := fun e he => (List.mem_filter.mp he).2
    have hcpair : c.Pairwise (fun a b => powerDescLe a b = true) := by
      apply List.pairwise_of_forall_mem_list
      intro a ha b hb
      have hap : a.power_trb = p := of_decide_eq_true (hcq a ha)
      have hbp : b.power_trb = p := of_decide_eq_true (hcq b hb)
      simp only [powerDescLe, decide_eq_true_eq, hap, hbp, le_refl]
    have hsub : List.Sublist c (calculate_reporter_aprs reporters total mint fee bt) :=
      List.sublist_mergeSort powerDescLe_trans (fun a b => powerDescLe_total a b)
        hcpair (List.filter_sublist _)
    have hpermf : ((calculate_reporter_aprs reporters total mint fee bt).filter q).Perm c :=
      hperm.filter q
    have hcfix : c.filter q = c := List.filter_eq_self.mpr hcq
    have hsub2 : List.Sublist c ((calculate_reporter_aprs reporters total mint fee bt).filter q) :=
      hcfix ▸ hsub.filter q
    have hceq : c = (calculate_reporter_aprs reporters total mint fee bt).filter q :=
      hsub2.eq_of_length hpermf.length_eq.symm
    rw [← hceq, hc, collectEntries_eq]
  · intro r _ _ hmon
    simp [mkReporterEntry, hmon]

/-- Witness for C8 at a concrete input: a single reporter with empty
moniker, digit power `"5"` and empty commission string gets the truncated
address plus `"..."` as display name. -/
theorem reporter_aprs_spec_witness :
    (mkReporterEntry 10000 1 0 6
        { address := "tellor1firstaddress", moniker := "", power := "5",
          commission_rate := none }).moniker = "tellor1first..." := by
  have h := reporter_aprs_spec
    [{ address := "tellor1firstaddress", moniker := "", power := "5",
       commission_rate := none }] 10000 1 0 6
  have hp : (0 : ℚ) < parsePower "5" := by
    rw [parsePower, if_pos (by decide : pyIsDigit "5" = true)]
    norm_num [show parseDigits "5".data = 5 from by decide]
  have := h.2.2.2.2.2
    { address := "tellor1firstaddress", moniker := "", power := "5",
      commission_rate := none }
    (by simp) hp rfl
  rw [this]
  decide

/-- Embedding of the median computation of `calculate_apr_avgs`
(src/apr.py lines 553-559): sort ascending, take the middle value for odd
length and the mean of the two middle values for even length. -/
def pyMedian (xs : List ℚ) : ℚ :=
  let s := xs.mergeSort (fun a b => decide (a ≤ b))
  if s.length % 2 = 0 then (s.getD (s.length / 2 - 1) 0 + s.getD (s.length / 2) 0) / 2
  else s.getD (s.length / 2) 0

/-- Embedding of `calculate_apr_avgs` (src/apr.py lines 532-561): the
accumulation loop over the records, the two degenerate early returns, then
weighted average and median. -/
def calculate_apr_avgs (reporter_aprs : List ReporterAPR) : ℚ × ℚ :=
  if reporter_aprs = [] then (0, 0)
  else
    let total_weighted_apr := reporter_aprs.foldl (fun acc r => acc + r.apr * r.power_trb) 0
    let total_power := reporter_aprs.foldl (fun acc r => acc + r.power_trb) 0
    if total_power = 0 then (0, 0)
    else (total_weighted_apr / total_power, pyMedian (reporter_aprs.map (·.apr)))

/-- The accumulation loop computes `c` plus the sum of the mapped values. -/
theorem foldl_add_map (f : ReporterAPR → ℚ) :
    ∀ (l : List ReporterAPR) (c : ℚ),
      l.foldl (fun acc r => acc + f r) c = c + (l.map f).sum
  | [], c => by simp
  | r :: rest, c => by
    simp only [List.foldl_cons, List.map_cons, List.sum_cons, foldl_add_map f rest]
    ring

/-- Closed form of `calculate_apr_avgs` on the non-degenerate branch. -/
theorem calculate_apr_avgs_eq (l : List ReporterAPR) (hne : l ≠ [])
    (hsum : (l.map (·.power_trb)).sum ≠ 0) :
    calculate_apr_avgs l =
      ((l.map (fun r => r.apr * r.power_trb)).sum / (l.map (·.power_trb)).sum,
        pyMedian (l.map (·.apr))) := by
  simp only [calculate_apr_avgs, if_neg hne, foldl_add_map, zero_add, if_neg hsum]

/-- If all powers are nonnegative and they sum to zero, each power is zero. -/
theorem power_zero_of_sum_zero (l : List ReporterAPR)
    (hpow : ∀ r ∈ l, 0 ≤ r.power_trb) (hz : (l.map (·.power_trb)).sum = 0) :
    ∀ r ∈ l, r.power_trb = 0 := by
  induction l with
  | nil => simp
  | cons x xs ih =>
    simp only [List.map_cons, List.sum_cons] at hz
    have hx : 0 ≤ x.power_trb := hpow x (List.mem_cons_self x xs)
    have hpxs : ∀ r ∈ xs, 0 ≤ r.power_trb := fun r hr => hpow r (List.mem_cons_of_mem x hr)
    have hxs : 0 ≤ (xs.map (·.power_trb)).sum := by
      apply List.sum_nonneg
      intro q hq
      obtain ⟨r, hr, rfl⟩ := List.mem_map.mp hq
      exact hpxs r hr
    have hx0 : x.power_trb = 0 := by linarith
    have hxs0 : (xs.map (·.power_trb)).sum = 0 := by linarith
    intro r hr
    rcases List.mem_cons.mp hr with rfl | hr2
    · exact hx0
    · exact ih hpxs hxs0 r hr2

/-- If every power is zero the weighted sum is zero. -/
theorem wsum_eq_zero (l : List ReporterAPR) (hz : ∀ r ∈ l, r.power_trb = 0) :
    (l.map (fun r => r.apr * r.power_trb)).sum = 0 := by
  induction l with
  | nil => rfl
  | cons x xs ih =>
    simp only [List.map_cons, List.sum_cons, hz x (List.mem_cons_self x xs), mul_zero, zero_add]
    exact ih (fun r hr => hz r (List.mem_cons_of_mem x hr))

/-- Some reporter's APR, scaled by the total power, dominates the weighted
sum: the ingredient for `weighted_avg <= max apr`. -/
theorem exists_wsum_le_mul (l : List ReporterAPR)
    (hpow : ∀ r ∈ l, 0 ≤ r.power_trb) (hpos : 0 < (l.map (·.power_trb)).sum) :
    ∃ r ∈ l, (l.map (fun r => r.apr * r.power_trb)).sum ≤
      r.apr * (l.map (·.power_trb)).sum := by
  induction l with
  | nil => simp at hpos
  | cons x xs ih =>
    have hpxs : ∀ r ∈ xs, 0 ≤ r.power_trb := fun r hr => hpow r (List.mem_cons_of_mem x hr)
    have hx : 0 ≤ x.power_trb := hpow x (List.mem_cons_self x xs)
    have hTnn : 0 ≤ (xs.map (·.power_trb)).sum := by
      apply List.sum_nonneg
      intro q hq
      obtain ⟨r, hr, rfl⟩ := List.mem_map.mp hq
      exact hpxs r hr
    simp only [List.map_cons, List.sum_cons]
    rcases lt_or_le 0 ((xs.map (·.power_trb)).sum) with hxs | hxs
    · obtain ⟨r, hr, hle⟩ := ih hpxs hxs
      rcases le_total x.apr r.apr with hcase | hcase
      · refine ⟨r, List.mem_cons_of_mem x hr, ?_⟩
        have h1 : x.apr * x.power_trb ≤ r.apr * x.power_trb :=
          mul_le_mul_of_nonneg_right hcase hx
        rw [mul_add]
        linarith
      · refine ⟨x, List.mem_cons_self x xs, ?_⟩
        have h1 : r.apr * (xs.map (·.power_trb)).sum ≤ x.apr * (xs.map (·.power_trb)).sum :=
          mul_le_mul_of_nonneg_right hcase hTnn
        rw [mul_add]
        linarith
    · have hT0 : (xs.map (·.power_trb)).sum = 0 := le_antisymm hxs hTnn
      have hS0 : (xs.map (fun r => r.apr * r.power_trb)).sum = 0 :=
        wsum_eq_zero xs (power_zero_of_sum_zero xs hpxs hT0)
      refine ⟨x, List.mem_cons_self x xs, ?_⟩
      rw [mul_add, hT0, hS0]
      simp

/-- Some reporter's APR, scaled by the total power, is dominated by the
weighted sum: the ingredient for `min apr <= weighted_avg`. -/
theorem exists_mul_le_wsum (l : List ReporterAPR)
    (hpow : ∀ r ∈ l, 0 ≤ r.power_trb) (hpos : 0 < (l.map (·.power_trb)).sum) :
    ∃ r ∈ l, r.apr * (l.map (·.power_trb)).sum ≤
      (l.map (fun r => r.apr * r.power_trb)).sum := by
  induction l with
  | nil => simp at hpos
  | cons x xs ih =>
    have hpxs : ∀ r ∈ xs, 0 ≤ r.power_trb := fun r hr => hpow r (List.mem_cons_of_mem x hr)
    have hx : 0 ≤ x.power_trb := hpow x (List.mem_cons_self x xs)
    have hTnn : 0 ≤ (xs.map (·.power_trb)).sum := by
      apply List.sum_nonneg
      intro q hq
      obtain ⟨r, hr, rfl⟩ := List.mem_map.mp hq
      exact hpxs r hr
    simp only [List.map_cons, List.sum_cons]
    rcases lt_or_le 0 ((xs.map (·.power_trb)).sum) with hxs | hxs
    · obtain ⟨r, hr, hle⟩ := ih hpxs hxs
      rcases le_total x.apr r.apr with hcase | hcase
      · refine ⟨x, List.mem_cons_self x xs, ?_⟩
        have h1 : x.apr * (xs.map (·.power_trb)).sum ≤ r.apr * (xs.map (·.power_trb)).sum :=
          mul_le_mul_of_nonneg_right hcase hTnn
        rw [mul_add]
        linarith
      · refine ⟨r, List.mem_cons_of_mem x hr, ?_⟩
        have h1 : r.apr * x.power_trb ≤ x.apr * x.power_trb :=
          mul_le_mul_of_nonneg_right hcase hx
        rw [mul_add]
        linarith
    · have hT0 : (xs.map (·.power_trb)).sum = 0 := le_antisymm hxs hTnn
      have hS0 : (xs.map (fun r => r.apr * r.power_trb)).sum = 0 :=
        wsum_eq_zero xs (power_zero_of_sum_zero xs hpxs hT0)
      refine ⟨x, List.mem_cons_self x xs, ?_⟩
      rw [mul_add, hT0, hS0]
      simp

/-- C5: for a non-empty record list with positive total power,
`calculate_apr_avgs` returns the power-weighted average of the APRs and the
standard median of the APR values (any ascending-sorted permutation of the
APRs has the middle value, or mean of the two middle values, as the
median — independent of the powers); the empty list and any list with zero
total power give `(0, 0)`. -/
theorem apr_avgs_spec (l : List ReporterAPR) :
    calculate_apr_avgs [] = (0, 0)
  ∧ ((l.map (·.power_trb)).sum = 0 → calculate_apr_avgs l = (0, 0))
  ∧ (l ≠ [] → 0 < (l.map (·.power_trb)).sum →
      (calculate_apr_avgs l).1 =
          (l.map (fun r => r.apr * r.power_trb)).sum / (l.map (·.power_trb)).sum
        ∧ ∀ s : List ℚ, s.Perm (l.map (·.apr)) → s.Pairwise (· ≤ ·) →
            (calculate_apr_avgs l).2 =
              if s.length % 2 = 0 then
                (s.getD (s.length / 2 - 1) 0 + s.getD (s.length / 2) 0) / 2
              else s.getD (s.length / 2) 0) := by
  refine ⟨rfl, fun hzero => ?_, fun hne hpos => ⟨?_, fun s hs hsorted => ?_⟩⟩
  · by_cases hnil : l = []
    · subst hnil; rfl
    · simp [calculate_apr_avgs, if_neg hnil, foldl_add_map, zero_add, hzero]
  · rw [calculate_apr_avgs_eq l hne hpos.ne']
  · have hms : (l.map (·.apr)).mergeSort (fun a b => decide (a ≤ b)) = s := by
      have hsort_ms :
          ((l.map (·.apr)).mergeSort (fun a b => decide (a ≤ b))).Pairwise (· ≤ ·) := by
        have h := @List.sorted_mergeSort ℚ (fun a b : ℚ => decide (a ≤ b))
          (fun a b c h1 h2 => by
            simp only [decide_eq_true_eq] at *
            exact le_trans h1 h2)
          (fun a b => by
            simp only [Bool.or_eq_true, decide_eq_true_eq]
            exact le_total a b)
          (l.map (·.apr))
        exact h.imp (fun hab => of_decide_eq_true hab)
      exact List.eq_of_perm_of_sorted ((List.mergeSort_perm _ _).trans hs.symm)
        hsort_ms hsorted
    rw [calculate_apr_avgs_eq l hne hpos.ne']
    simp only [pyMedian, hms]

/-- The two-reporter population of the spec's concrete scenario. -/
def demoReporters : List ReporterAPR :=
  [{ address := "addr1", moniker := "r1", power_trb := 1000000, apr := 10,
     commission_rate := 0 },
   { address := "addr2", moniker := "r2", power_trb := 2000000, apr := 20,
     commission_rate := 0 }]

/-- Witness for C5: powers 1,000,000 and 2,000,000 with APRs 10 and 20 give
weighted average `50/3` and median `15`. -/
theorem apr_avgs_spec_witness :
    (calculate_apr_avgs demoReporters).1 = 50 / 3 ∧
      (calculate_apr_avgs demoReporters).2 = 15 := by
  have h := apr_avgs_spec demoReporters
  have hne : demoReporters ≠ [] := by simp [demoReporters]
  have hpos : 0 < (demoReporters.map (·.power_trb)).sum := by norm_num [demoReporters]
  have h3 := h.2.2 hne hpos
  constructor
  · rw [h3.1]
    norm_num [demoReporters]
  · have hperm : ([10, 20] : List ℚ).Perm (demoReporters.map (·.apr)) := by
      rw [show demoReporters.map (·.apr) = [10, 20] from rfl]
    have hsorted : ([10, 20] : List ℚ).Pairwise (· ≤ ·) := by
      norm_num [List.pairwise_cons]
    rw [h3.2 [10, 20] hperm hsorted]
    norm_num [List.getD_cons_zero, List.getD_cons_succ]

/-- C9: for a non-empty record list with nonnegative powers and positive
total power, the weighted average APR is bounded by the extremes of the
individual APRs: some reporter's APR is below it, some reporter's APR is
above it, and consequently any uniform bounds on the individual APRs bound
the weighted average. -/
theorem weighted_avg_bounded (l : List ReporterAPR) (hne : l ≠ [])
    (hpow : ∀ r ∈ l, 0 ≤ r.power_trb) (hpos : 0 < (l.map (·.power_trb)).sum) :
    ((∃ r ∈ l, r.apr ≤ (calculate_apr_avgs l).1)
      ∧ (∃ r ∈ l, (calculate_apr_avgs l).1 ≤ r.apr))
  ∧ ∀ lo hi : ℚ, (∀ r ∈ l, lo ≤ r.apr ∧ r.apr ≤ hi) →
      lo ≤ (calculate_apr_avgs l).1 ∧ (calculate_apr_avgs l).1 ≤ hi := by
  have heq : (calculate_apr_avgs l).1 =
      (l.map (fun r => r.apr * r.power_trb)).sum / (l.map (·.power_trb)).sum := by
    rw [calculate_apr_avgs_eq l hne hpos.ne']
  have hlow : ∃ r ∈ l, r.apr ≤ (calculate_apr_avgs l).1 := by
    obtain ⟨r, hr, hle⟩ := exists_mul_le_wsum l hpow hpos
    exact ⟨r, hr, by rw [heq]; exact (le_div_iff hpos).mpr hle⟩
  have hhigh : ∃ r ∈ l, (calculate_apr_avgs l).1 ≤ r.apr := by
    obtain ⟨r, hr, hle⟩ := exists_wsum_le_mul l hpow hpos
    exact ⟨r, hr, by rw [heq]; exact (div_le_iff hpos).mpr hle⟩
  refine ⟨⟨hlow, hhigh⟩, fun lo hi hbound => ⟨?_, ?_⟩⟩
  · obtain ⟨r, hr, hle⟩ := hlow
    exact le_trans (hbound r hr).1 hle
  · obtain ⟨r, hr, hle⟩ := hhigh
    exact le_trans hle (hbound r hr).2

/-- Witness for C9 on the two-reporter demo population. -/
theorem weighted_avg_bounded_witness :
    (∃ r ∈ demoReporters, r.apr ≤ (calculate_apr_avgs demoReporters).1)
      ∧ (∃ r ∈ demoReporters, (calculate_apr_avgs demoReporters).1 ≤ r.apr) := by
  refine (weighted_avg_bounded demoReporters (by simp [demoReporters]) ?_ ?_).1
  · intro r hr
    rcases List.mem_cons.mp hr with rfl | hr2
    · norm_num
    · rcases List.mem_cons.mp hr2 with rfl | hr3
      · norm_num
      · simp at hr3
  · norm_num [demoReporters]

/-- Unicode decimal-digit value of a character (category Nd), the table
consulted by Python `int()`: modelled here on the code ranges this
development uses, namely the ASCII digits and the Arabic-Indic digits
U+0660-U+0669 (so `int("٥") = 5`); every other modelled character has no
decimal value. -/
def pyDecimalDigitVal (c : Char) : Option ℕ :=
  if c.isDigit then some (c.toNat - 48)
  else if 0x660 ≤ c.toNat ∧ c.toNat ≤ 0x669 then some (c.toNat - 0x660)
  else none

/-- Per-character test of Python `str.isdigit`: true for decimal digits
(category Nd) and also for Numeric_Type=Digit characters that are not
decimal, modelled here by the superscripts U+00B2, U+00B3, U+00B9 and
U+2070-U+2079 (so `"²".isdigit()` is true although `int("²")` raises). -/
def pyIsDigitChar (c : Char) : Bool :=
  (pyDecimalDigitVal c).isSome
    || c.toNat = 0xB2 || c.toNat = 0xB3 || c.toNat = 0xB9
    || (0x2070 ≤ c.toNat && c.toNat ≤ 0x2079)

/-- Python `str.isdigit` on the modelled character ranges: nonempty and all
characters digit-like (decimal or Numeric_Type=Digit). -/
def pyIsDigitU (s : String) : Bool :=
  !s.data.isEmpty && s.data.all pyIsDigitChar

/-- Python `int(s)` on the modelled character ranges: succeeds iff `s` is
nonempty and every character has a decimal-digit value, otherwise raises
`ValueError` (as it does on `"²"`, which is digit-like but not decimal). -/
def pyInt (s : String) : Except PyError ℕ :=
  if !s.data.isEmpty && s.data.all (fun c => (pyDecimalDigitVal c).isSome) then
    .ok (s.data.foldl (fun n c => n * 10 + (pyDecimalDigitVal c).getD 0) 0)
  else
    .error .valueError

/-- Unicode-faithful embedding of
`int(reporter["power"]) if reporter["power"].isdigit() else 0`
(src/apr.py line 359): the `isdigit` guard does not prevent `int()` from
raising, because `isdigit` accepts non-decimal digit characters. -/
def parsePowerChecked (s : String) : Except PyError ℚ :=
  if pyIsDigitU s then (pyInt s).map (fun n => (n : ℚ)) else .ok 0

/-- The record built for one kept reporter, at an explicitly given parsed
power (same fields as `mkReporterEntry`). -/
def mkEntryWithPower (total mint fee bt : ℚ) (r : ReporterInput) (p : ℚ) : ReporterAPR :=
  { address := r.address
    moniker := if r.moniker = "" then r.address.take 12 ++ "..." else r.moniker
    power_trb := p
    apr := aprByStake p total mint fee bt
    commission_rate :=
      match r.commission_rate with
      | some c => c * 100
      | none => 0 }

/-- Unicode-faithful accumulation loop of `calculate_reporter_aprs`: the
power parse of each reporter may raise, and the first raise propagates. -/
def collectEntriesChecked (total mint fee bt : ℚ) :
    List ReporterInput → Except PyError (List ReporterAPR)
  | [] => .ok []
  | r :: rest =>
    match parsePowerChecked r.power with
    | .error e => .error e
    | .ok p =>
      match collectEntriesChecked total mint fee bt rest with
      | .error e => .error e
      | .ok tail =>
        if 0 < p then .ok (mkEntryWithPower total mint fee bt r p :: tail)
        else .ok tail

/-- Unicode-faithful embedding of `calculate_reporter_aprs` (src/apr.py
lines 351-379): collect with fallible power parsing, then the stable
descending sort. -/
def calculate_reporter_aprs_checked
    (reporters : List ReporterInput) (total mint fee bt : ℚ) :
    Except PyError (List ReporterAPR) :=
  (collectEntriesChecked total mint fee bt reporters).map
    (fun entries => entries.mergeSort powerDescLe)

/-- On ASCII characters the Unicode digit test coincides with the ASCII
one (all non-ASCII digit ranges lie above code point 128). -/
theorem ascii_pyIsDigitChar (c : Char) (hc : c.toNat < 128) :
    pyIsDigitChar c = c.isDigit := by
  unfold pyIsDigitChar pyDecimalDigitVal
  by_cases h : c.isDigit
  · simp [h]
  · have h1 : ¬(0x660 ≤ c.toNat ∧ c.toNat ≤ 0x669) := by omega
    have h2 : ¬(c.toNat = 0xB2) := by omega
    have h3 : ¬(c.toNat = 0xB3) := by omega
    have h4 : ¬(c.toNat = 0xB9) := by omega
    have h5 : ¬(0x2070 ≤ c.toNat) := by omega
    simp [h, h1, h2, h3, h4, h5]

theorem data_all_pyIsDigitChar (l : List Char) (h : ∀ c ∈ l, c.toNat < 128) :
    l.all pyIsDigitChar = l.all Char.isDigit := by
  induction l with
  | nil => rfl
  | cons c cs ih =>
    rw [List.all_cons, List.all_cons,
      ascii_pyIsDigitChar c (h c (List.mem_cons_self c cs)),
      ih (fun x hx => h x (List.mem_cons_of_mem c hx))]

/-- On ASCII strings `pyIsDigitU` coincides with the ASCII `pyIsDigit`. -/
theorem ascii_pyIsDigitU (s : String) (h : ∀ c ∈ s.data, c.toNat < 128) :
    pyIsDigitU s = pyIsDigit s := by
  unfold pyIsDigitU pyIsDigit
  rw [data_all_pyIsDigitChar s.data h]

theorem pyDecimalDigitVal_of_isDigit (c : Char) (h : c.isDigit = true) :
    pyDecimalDigitVal c = some (c.toNat - 48) := by
  unfold pyDecimalDigitVal
  rw [if_pos h]

theorem foldl_decval (l : List Char) (h : ∀ c ∈ l, c.isDigit = true) :
    ∀ acc : ℕ, l.foldl (fun n c => n * 10 + (pyDecimalDigitVal c).getD 0) acc =
      l.foldl (fun n c => n * 10 + (c.toNat - 48)) acc := by
  induction l with
  | nil => intro acc; rfl
  | cons c cs ih =>
    intro acc
    rw [List.foldl_cons, List.foldl_cons,
      pyDecimalDigitVal_of_isDigit c (h c (List.mem_cons_self c cs)),
      Option.getD_some]
    exact ih (fun x hx => h x (List.mem_cons_of_mem c hx)) _

/-- On an ASCII digit string `int()` succeeds with the expected value. -/
theorem pyInt_of_pyIsDigit (s : String) (h : pyIsDigit s = true) :
    pyInt s = .ok (parseDigits s.data) := by
  unfold pyIsDigit at h
  rw [Bool.and_eq_true] at h
  obtain ⟨hne, hall⟩ := h
  have hall2 : s.data.all (fun c => (pyDecimalDigitVal c).isSome) = true := by
    rw [List.all_eq_true] at hall ⊢
    intro c hc
    rw [pyDecimalDigitVal_of_isDigit c (hall c hc)]
    rfl
  unfold pyInt
  rw [if_pos (by rw [Bool.and_eq_true]; exact ⟨hne, hall2⟩)]
  unfold parseDigits
  rw [foldl_decval s.data (fun c hc => List.all_eq_true.mp hall c hc) 0]

/-- On ASCII power strings the fallible parse agrees with the total one. -/
theorem parsePowerChecked_ascii (s : String) (h : ∀ c ∈ s.data, c.toNat < 128) :
    parsePowerChecked s = .ok (parsePower s) := by
  unfold parsePowerChecked parsePower
  rw [ascii_pyIsDigitU s h]
  by_cases hd : pyIsDigit s = true
  · rw [if_pos hd, if_pos hd, pyInt_of_pyIsDigit s hd]
    rfl
  · rw [if_neg hd, if_neg hd]

/-- On all-ASCII power strings the fallible loop agrees with the total
one. -/
theorem collectEntriesChecked_ascii (total mint fee bt : ℚ) (rs : List ReporterInput)
    (h : ∀ q ∈ rs, ∀ c ∈ q.power.data, c.toNat < 128) :
    collectEntriesChecked total mint fee bt rs =
      .ok (collectEntries total mint fee bt rs) := by
  induction rs with
  | nil => rfl
  | cons r rest ih =>
    have hr := h r (List.mem_cons_self r rest)
    have hrest : ∀ q ∈ rest, ∀ c ∈ q.power.data, c.toNat < 128 :=
      fun q hq => h q (List.mem_cons_of_mem r hq)
    simp only [collectEntriesChecked]
    rw [parsePowerChecked_ascii r.power hr, ih hrest]
    by_cases hp : 0 < parsePower r.power
    · simp only [collectEntries, if_pos hp]
      rfl
    · simp only [collectEntries, if_neg hp]

/-- C10 counterexample: the claim is false of the program.  The power
string `"²"` (U+00B2) is not a plain non-negative digit string, yet
`"²".isdigit()` is true, so the code calls `int("²")` and raises
`ValueError` instead of treating it as power 0; and the power string `"٥"`
(U+0665, Arabic-Indic five) — also not a plain digit string — is parsed to
power 5 and the reporter is included in the output, not excluded. -/
theorem nondigit_power_unicode_raises :
    calculate_reporter_aprs_checked
        [{ address := "a1", moniker := "m1", power := "²", commission_rate := none }]
        10000 1 0 6 = .error .valueError
  ∧ calculate_reporter_aprs_checked
        [{ address := "a2", moniker := "m2", power := "٥", commission_rate := none }]
        10000 1 0 6 =
      .ok [{ address := "a2", moniker := "m2", power_trb := 5,
             apr := aprByStake 5 10000 1 0 6, commission_rate := 0 }] := by
  constructor
  · rfl
  · have h5 : parsePowerChecked "٥" = .ok 5 := by
      have h0 : parsePowerChecked "٥" = .ok ((5 : ℕ) : ℚ) := rfl
      rw [h0]
      norm_num
    rw [calculate_reporter_aprs_checked]
    simp only [collectEntriesChecked, h5]
    rw [if_pos (by norm_num : (0 : ℚ) < 5)]
    simp [mkEntryWithPower, Except.map]

/-- C10 (amended: restricted to ASCII power strings, the only ones for
which "not a plain non-negative digit string" implies the else-0 branch of
the source; on non-ASCII strings the code can instead raise `ValueError`
(`"²"`) or include the reporter (`"٥"`), see the counterexample): for
every reporters input whose power fields are ASCII, `calculate_reporter_aprs`
never raises — its fallible embedding returns `.ok` of the total one — and
an ASCII reporter whose power is not a plain non-negative digit string
(e.g. `"-5"`, `"1.5"`, `""`) is treated as power 0 and excluded entirely:
removing it from the input leaves the output unchanged. -/
theorem nondigit_power_excluded_ascii
    (reporters l1 l2 : List ReporterInput) (r : ReporterInput) (total mint fee bt : ℚ)
    (hall : ∀ q ∈ reporters, ∀ c ∈ q.power.data, c.toNat < 128)
    (hrascii : ∀ c ∈ r.power.data, c.toNat < 128)
    (hr : pyIsDigit r.power = false) :
    calculate_reporter_aprs_checked reporters total mint fee bt =
        .ok (calculate_reporter_aprs reporters total mint fee bt)
      ∧ parsePowerChecked r.power = .ok 0
      ∧ parsePower r.power = 0
      ∧ calculate_reporter_aprs (l1 ++ r :: l2) total mint fee bt =
          calculate_reporter_aprs (l1 ++ l2) total mint fee bt := by
  have hp : parsePower r.power = 0 := by
    rw [parsePower, if_neg]
    simp [hr]
  refine ⟨?_, ?_, hp, ?_⟩
  · rw [calculate_reporter_aprs_checked,
      collectEntriesChecked_ascii total mint fee bt reporters hall]
    rfl
  · rw [parsePowerChecked_ascii r.power hrascii, hp]
  · have hcoll : ∀ rs : List ReporterInput,
        collectEntries total mint fee bt (rs ++ r :: l2) =
          collectEntries total mint fee bt (rs ++ l2) := by
      intro rs
      induction rs with
      | nil =>
        simp only [List.nil_append, collectEntries, hp]
        rw [if_neg (by norm_num)]
      | cons x xs ih =>
        simp only [List.cons_append, collectEntries, List.append_eq, ih]
    rw [calculate_reporter_aprs, calculate_reporter_aprs, hcoll l1]

/-- Witness for C10 (amended) at concrete inputs: an all-ASCII population
(one reporter with digit power `"7"`), and the excluded reporter with the
ASCII non-digit power string `"-5"`. -/
theorem nondigit_power_excluded_ascii_witness :
    calculate_reporter_aprs_checked
        [{ address := "a1", moniker := "m1", power := "7", commission_rate := none }]
        10000 1 0 6 =
      .ok (calculate_reporter_aprs
        [{ address := "a1", moniker := "m1", power := "7", commission_rate := none }]
        10000 1 0 6)
    ∧ parsePowerChecked "-5" = .ok 0
    ∧ parsePower "-5" = 0
    ∧ calculate_reporter_aprs
        [{ address := "a2", moniker := "m2", power := "-5", commission_rate := none }]
        10000 1 0 6 =
      calculate_reporter_aprs [] 10000 1 0 6 :=
  nondigit_power_excluded_ascii
    [{ address := "a1", moniker := "m1", power := "7", commission_rate := none }]
    [] [] { address := "a2", moniker := "m2", power := "-5", commission_rate := none }
    10000 1 0 6 (by decide) (by decide) (by decide)
